import Mathlib

/-!
Verification development for the ChatStream repository (src/protocol.py,
src/server.py): a shallow embedding of the wire codec, the per-connection
session handshake, the room registry handlers and the delivery loops,
together with theorems settling the specification claims.

Conventions of the embedding:
- Python `bytes` values are `List Nat` (each element a byte value).
- Python `str` values are Lean `String`; the Python methods `strip`,
  `lower` and the check `" " in s` are modelled by the executable
  functions `pyStrip`, `pyLower`, `hasSpace` below (faithful on the
  ASCII strings the protocol uses).
- Python dicts are insertion-ordered association lists; `dget`, `dupd`,
  `dset`, `dpop` model lookup, in-place value update, assignment and
  `pop`. Python dict keys are unique, which theorems assume where needed
  via `Nodup` hypotheses on the key lists.
- A frame written to a socket is recorded as a `Send` value
  (recipient username, opcode, payload text); exceptions raised by a
  socket write are modelled, where a claim needs them, by a boolean
  oracle saying which recipients fail.
-/

/-! ## Byte-level wire codec (src/protocol.py) -/

/-- Big-endian 4-byte encoding of an unsigned 32-bit integer, as produced
for each of the two header fields by `struct.pack` with format `!II`. -/
def be4 (n : Nat) : List Nat :=
  [n / 2 ^ 24 % 256, n / 2 ^ 16 % 256, n / 2 ^ 8 % 256, n % 256]

/-- Big-endian read of a 4-byte field, as done by `struct.unpack` with
format `!II` on each half of the 8-byte header. -/
def parseBe4 : List Nat → Nat
  | [b0, b1, b2, b3] => b0 * 2 ^ 24 + b1 * 2 ^ 16 + b2 * 2 ^ 8 + b3
  | _ => 0

/-- `Message` of src/protocol.py. The payload is kept as its UTF-8 byte
sequence (the Python field is a `str`; `encode` turns it into exactly
these bytes and `decode` interprets received bytes as UTF-8 text). -/
structure Msg where
  opcode : Nat
  payload : List Nat
deriving DecidableEq, Repr

/-- `Message.encode` (src/protocol.py lines 63-77): 4-byte big-endian
opcode, 4-byte big-endian payload length, then the payload bytes. -/
def Msg.encode (m : Msg) : List Nat :=
  be4 m.opcode ++ be4 m.payload.length ++ m.payload

/-- The length field a buffer's header declares: `struct.unpack` of
bytes 4..8. -/
def declaredLen (data : List Nat) : Nat := parseBe4 ((data.drop 4).take 4)

/-- `Message.decode` (src/protocol.py lines 79-92). `struct.unpack('!II',
data[:8])` raises if fewer than 8 bytes are available (modelled as
`none`); otherwise the payload is the Python slice `data[8:8+length]`,
which silently truncates when the buffer is short. -/
def Msg.decode (data : List Nat) : Option Msg :=
  if data.length < 8 then none
  else some ⟨parseBe4 (data.take 4), (data.drop 8).take (declaredLen data)⟩

/-- The receive path of `handle_client` (src/server.py lines 404-411):
each raw `reader.read(1024)` chunk is passed whole to `Message.decode`;
an empty read breaks the loop and a decode exception aborts the
connection, so each chunk yields at most one message and any bytes
beyond the first frame in a chunk are dropped. -/
def serverDecodeReads : List (List Nat) → List Msg
  | [] => []
  | chunk :: rest =>
    match Msg.decode chunk with
    | none => []
    | some m => m :: serverDecodeReads rest

/-- Modelled from the spec: the stream reassembler of section 4.1, which
src/server.py does not implement. Repeatedly: with at least 8 buffered
bytes parse the header, and with at least `8 + length` buffered bytes
emit one frame and remove its bytes. The fuel argument (one unit per
extracted frame, each frame consuming at least 8 bytes) makes the
recursion structural. -/
def extractFramesFuel : Nat → List Nat → List Msg × List Nat
  | 0, buf => ([], buf)
  | fuel + 1, buf =>
    if 8 ≤ buf.length then
      if 8 + declaredLen buf ≤ buf.length then
        let m : Msg := ⟨parseBe4 (buf.take 4), (buf.drop 8).take (declaredLen buf)⟩
        let rest := extractFramesFuel fuel (buf.drop (8 + declaredLen buf))
        (m :: rest.1, rest.2)
      else ([], buf)
    else ([], buf)

/-- Modelled from the spec: extract every complete frame from a buffer. -/
def extractFrames (buf : List Nat) : List Msg × List Nat :=
  extractFramesFuel buf.length buf

/-- Modelled from the spec: feed a sequence of raw reads through the
section 4.1 reassembler, keeping leftover bytes buffered between reads. -/
def reassembleReads (reads : List (List Nat)) : List Msg :=
  (reads.foldl
    (fun acc chunk =>
      let step := extractFrames (acc.2 ++ chunk)
      (acc.1 ++ step.1, step.2))
    (([], []) : List Msg × List Nat)).1

/-! ## String helpers mirroring the Python methods used by the server -/

/-- Python `str.strip()` with no argument: drop leading and trailing
whitespace (faithful for the ASCII whitespace the protocol uses). -/
def pyStrip (s : String) : String :=
  ⟨((s.data.dropWhile Char.isWhitespace).reverse.dropWhile Char.isWhitespace).reverse⟩

/-- Python `str.lower()` (faithful for ASCII room names). -/
def pyLower (s : String) : String := ⟨s.data.map Char.toLower⟩

/-- Python `" " in s`: does the string contain a space character. -/
def hasSpace (s : String) : Bool := s.data.contains ' '

/-! ## Ordered-dict helpers (Python dict semantics) -/

/-- Dict lookup: first entry with the given key. -/
def dget {α : Type} : List (String × α) → String → Option α
  | [], _ => none
  | (k, v) :: d, key => if k = key then some v else dget d key

/-- Python `key in dict`. -/
def dmem {α : Type} (d : List (String × α)) (key : String) : Bool :=
  (dget d key).isSome

/-- In-place mutation of the value stored under a key (such as Python
`rooms[name].append(u)` or `rooms[name].remove(u)`); keys and their
positions are unchanged, and a missing key leaves the dict unchanged. -/
def dupd {α : Type} : List (String × α) → String → (α → α) → List (String × α)
  | [], _, _ => []
  | (k, v) :: d, key, f =>
    if k = key then (k, f v) :: dupd d key f else (k, v) :: dupd d key f

/-- Python `dict[key] = v`: update in place when the key exists,
otherwise append the new entry at the end (insertion order). -/
def dset {α : Type} (d : List (String × α)) (key : String) (v : α) : List (String × α) :=
  if dmem d key then dupd d key (fun _ => v) else d ++ [(key, v)]

/-- Python `dict.pop(key, None)`. -/
def dpop {α : Type} : List (String × α) → String → List (String × α)
  | [], _ => []
  | (k, v) :: d, key => if k = key then dpop d key else (k, v) :: dpop d key

/-! ## Server registry state (the module-level dicts of src/server.py) -/

/-- The three module-level dicts of src/server.py: `clients` (here the
insertion-ordered list of registered usernames, standing for the keys of
the username-to-StreamWriter dict), `rooms` (room name to member list)
and `active_rooms` (username to active room name). -/
structure ServerState where
  clients : List String
  rooms : List (String × List String)
  active_rooms : List (String × String)
deriving DecidableEq, Repr

/-- One frame written to one client: recipient username, opcode, payload
text. -/
abbrev Send := String × Nat × String

def OPCODE_HELLO : Nat := 0x01
def OPCODE_JOIN : Nat := 0x02
def OPCODE_MESSAGE : Nat := 0x03
def OPCODE_ERROR : Nat := 0xFF
def OPCODE_CREATE_ROOM : Nat := 0x10
def OPCODE_LEAVE_ROOM : Nat := 0x13
def ERROR_ROOM_NOT_FOUND : Nat := 0xE2
def ERROR_ROOM_ALREADY_EXISTS : Nat := 0xE3

/-- `broadcast_message` (src/server.py lines 35-52) under the assumption
that every socket write succeeds: one frame per connected client, in
client-registration order. -/
def broadcastSends (clientsL : List String) (opcode : Nat) (payload : String) : List Send :=
  clientsL.map (fun c => (c, opcode, payload))

/-- Lines 392-394 and 212-215 of src/server.py: create `"lobby"` if it
is absent, then append the user to its member list. -/
def lobbyAdd (roomsL : List (String × List String)) (u : String) : List (String × List String) :=
  let r1 := if dmem roomsL "lobby" then roomsL else roomsL ++ [("lobby", [])]
  dupd r1 "lobby" (fun members => members ++ [u])

/-- Result of the handshake part of `handle_client`: the registry state
after the first decoded frame is processed, the frames written back to
this connection, and whether the user was registered (the `registered`
flag of src/server.py line 350/387, i.e. whether the session became
ACTIVE). -/
structure HandshakeOut where
  st : ServerState
  sends : List (Nat × String)
  registered : Bool
deriving DecidableEq, Repr

/-- The handshake of `handle_client` (src/server.py lines 358-402),
given the first decoded frame: reject a non-HELLO opcode, a username
containing a space after `strip()`, or a username already in `clients`;
otherwise register the user, add them to `"lobby"`, make `"lobby"`
their active room and send the welcome frame. -/
def handshake (s : ServerState) (opcode : Nat) (payload : String) : HandshakeOut :=
  if opcode ≠ OPCODE_HELLO then
    ⟨s, [(OPCODE_ERROR, "Expected HELLO message first")], false⟩
  else
    let username := pyStrip payload
    if hasSpace username then
      ⟨s, [(OPCODE_ERROR, "Usernames cannot contain spaces")], false⟩
    else if username ∈ s.clients then
      ⟨s, [(OPCODE_ERROR, "Username already taken")], false⟩
    else
      ⟨⟨s.clients ++ [username], lobbyAdd s.rooms username,
        dset s.active_rooms username "lobby"⟩,
       [(OPCODE_HELLO, "Welcome to the chat server!")], true⟩

/-- `handle_create_room` (src/server.py lines 118-130): if the room
exists, `broadcast_message` the ERROR_ROOM_ALREADY_EXISTS frame to every
connected client; otherwise create the room empty and broadcast the
confirmation. -/
def handle_create_room (s : ServerState) (username room_name : String) :
    ServerState × List Send :=
  if dmem s.rooms room_name then
    (s, broadcastSends s.clients ERROR_ROOM_ALREADY_EXISTS
      ("Room \x27" ++ room_name ++ "\x27 already exists!"))
  else
    ({ s with rooms := s.rooms ++ [(room_name, [])] },
     broadcastSends s.clients OPCODE_CREATE_ROOM
      ("Room \x27" ++ room_name ++ "\x27 created successfully by " ++ username))

/-- Lines 171-175 of src/server.py: when the joined room does not
lower-case to `"lobby"`, remove the user from the lobby member list if
`"lobby"` exists and the user is in it; otherwise leave `rooms`
unchanged. -/
def joinLobbyPrune (s : ServerState) (username room_name : String) :
    List (String × List String) :=
  if pyLower room_name ≠ "lobby" then
    match dget s.rooms "lobby" with
    | some lm =>
      if username ∈ lm then dupd s.rooms "lobby" (fun l => l.erase username)
      else s.rooms
    | none => s.rooms
  else s.rooms

/-- `handle_join_room` (src/server.py lines 152-183): unknown room sends
ERROR_ROOM_NOT_FOUND to the requester; a duplicate join sends a
confirmation to the requester and changes nothing; otherwise the lobby
prune above runs, the user is appended to the room, the room becomes
the active room and the join is broadcast. -/
def handle_join_room (s : ServerState) (username room_name : String) :
    ServerState × List Send :=
  match dget s.rooms room_name with
  | none =>
    (s, [(username, ERROR_ROOM_NOT_FOUND,
      "Room \x27" ++ room_name ++ "\x27 does not exist")])
  | some members =>
    if username ∈ members then
      (s, [(username, OPCODE_JOIN, "You are already in room \x27" ++ room_name ++ "\x27")])
    else
      ({ clients := s.clients,
         rooms := dupd (joinLobbyPrune s username room_name) room_name
          (fun l => l ++ [username]),
         active_rooms := dset s.active_rooms username room_name },
       broadcastSends s.clients OPCODE_JOIN
        (username ++ " joined room \x27" ++ room_name ++ "\x27"))

/-- The active-room recompute loop of `handle_leave_room` (src/server.py
lines 206-210): the first room in dict iteration order whose member list
contains the user. -/
def firstRoomContaining : List (String × List String) → String → Option String
  | [], _ => none
  | (r, members) :: rest, u =>
    if u ∈ members then some r else firstRoomContaining rest u

/-- `handle_leave_room` (src/server.py lines 186-217): leaving a room the
user is not in (or a nonexistent room) sends a single OPCODE_ERROR frame
to the requester and changes nothing; otherwise the user is removed from
the room, the leave is broadcast, and when the left room was the active
room the active room becomes the first remaining membership in dict
order, defaulting to `"lobby"` (re-added via `lobbyAdd`) when none
remains. -/
def handle_leave_room (s : ServerState) (username room_name : String) :
    ServerState × List Send :=
  match dget s.rooms room_name with
  | none => (s, [(username, OPCODE_ERROR, "You are not in this room")])
  | some members =>
    if username ∈ members then
      let rooms1 := dupd s.rooms room_name (fun l => l.erase username)
      let sends := broadcastSends s.clients OPCODE_LEAVE_ROOM
        (username ++ " left room \x27" ++ room_name ++ "\x27")
      if dget s.active_rooms username = some room_name then
        match firstRoomContaining rooms1 username with
        | some r =>
          (⟨s.clients, rooms1, dset s.active_rooms username r⟩, sends)
        | none =>
          (⟨s.clients, lobbyAdd rooms1 username,
            dset s.active_rooms username "lobby"⟩, sends)
      else
        ({ s with rooms := rooms1 }, sends)
    else
      (s, [(username, OPCODE_ERROR, "You are not in this room")])

/-- The cleanup run when a registered client disconnects (src/server.py
lines 453-460, and equivalently `disconnect_client` lines 106-111):
remove the user from every room member list, then pop them from
`active_rooms` and `clients`. -/
def disconnectCleanup (s : ServerState) (username : String) : ServerState :=
  { clients := s.clients.erase username,
    rooms := s.rooms.map (fun p => (p.1, p.2.erase username)),
    active_rooms := dpop s.active_rooms username }

/-- The per-recipient loop of `broadcast_message` (src/server.py lines
44-52) with a failure oracle `ok`: a `write`/`drain` that raises is
caught by the per-iteration `try`/`except` and the loop continues;
the returned list records the recipients whose send succeeded. -/
def broadcastDeliver : List String → (String → Bool) → List String
  | [], _ => []
  | c :: rest, ok =>
    if ok c then c :: broadcastDeliver rest ok else broadcastDeliver rest ok

/-- The member loop of `send_room_message` (src/server.py lines 70-79):
skip members with no live connection, attempt the send for the rest,
catching a per-recipient failure and continuing. -/
def roomDeliverLoop (clientsL : List String) (ok : String → Bool) :
    List String → List String
  | [] => []
  | u :: rest =>
    if u ∈ clientsL then
      if ok u then u :: roomDeliverLoop clientsL ok rest
      else roomDeliverLoop clientsL ok rest
    else roomDeliverLoop clientsL ok rest

/-- `send_room_message` (src/server.py lines 57-79) with a failure
oracle: an unknown room delivers to nobody, otherwise each member with a
live connection is attempted independently. -/
def sendRoomDeliver (s : ServerState) (room : String) (ok : String → Bool) : List String :=
  match dget s.rooms room with
  | none => []
  | some members => roomDeliverLoop s.clients ok members

/-- The registry invariant of the spec (section 3, invariant 2): every
registered user has an active room that is a key of the rooms dict and
whose member list contains the user. -/
def RegInv (s : ServerState) : Prop :=
  ∀ u ∈ s.clients, ∃ r members,
    dget s.active_rooms u = some r ∧ dget s.rooms r = some members ∧ u ∈ members

/-- The room stored at position `i` of the dict is the first one, in
iteration order, whose member list contains `u`. -/
def FirstMembership (d : List (String × List String)) (u r : String) : Prop :=
  ∃ pre m rest, d = pre ++ (r, m) :: rest ∧ u ∈ m ∧ ∀ p ∈ pre, u ∉ p.2

/-! ## Dict lemmas -/

theorem dget_cons {α : Type} (a : String) (w : α) (d : List (String × α)) (k : String) :
    dget ((a, w) :: d) k = if a = k then some w else dget d k := rfl

theorem dget_append_some {α : Type} {d : List (String × α)} {k : String} {v : α}
    (e : List (String × α)) (h : dget d k = some v) : dget (d ++ e) k = some v := by
  induction d with
  | nil => simp [dget] at h
  | cons p d ih =>
    obtain ⟨a, w⟩ := p
    rw [dget_cons] at h
    rw [List.cons_append, dget_cons]
    by_cases hak : a = k
    · rwa [if_pos hak] at h ⊢
    · rw [if_neg hak] at h ⊢
      exact ih h

theorem dget_append_none {α : Type} {d : List (String × α)} {k : String}
    (e : List (String × α)) (h : dget d k = none) : dget (d ++ e) k = dget e k := by
  induction d with
  | nil => simp
  | cons p d ih =>
    obtain ⟨a, w⟩ := p
    rw [dget_cons] at h
    rw [List.cons_append, dget_cons]
    by_cases hak : a = k
    · rw [if_pos hak] at h; exact absurd h (by simp)
    · rw [if_neg hak] at h ⊢
      exact ih h

theorem dupd_cons {α : Type} (a : String) (w : α) (d : List (String × α)) (k : String)
    (f : α → α) :
    dupd ((a, w) :: d) k f =
      if a = k then (a, f w) :: dupd d k f else (a, w) :: dupd d k f := rfl

theorem dget_dupd {α : Type} (d : List (String × α)) (k k' : String) (f : α → α) :
    dget (dupd d k f) k' = if k = k' then (dget d k').map f else dget d k' := by
  induction d with
  | nil => by_cases h : k = k' <;> simp [dupd, dget, h]
  | cons p d ih =>
    obtain ⟨a, w⟩ := p
    by_cases hak : a = k
    · by_cases hak' : a = k'
      · have hkk' : k = k' := hak ▸ hak'
        subst hak; subst hkk'
        simp [dupd_cons, dget_cons]
      · have hkk' : k ≠ k' := fun h => hak' (hak.trans h)
        simp [dupd_cons, dget_cons, hak, hak', hkk', ih]
    · by_cases hak' : a = k'
      · have hkk' : k ≠ k' := fun h => hak (hak'.trans h.symm)
        have hk'k : k' ≠ k := fun h => hkk' h.symm
        simp [dupd_cons, dget_cons, hak, hak', hkk', hk'k]
      · simp [dupd_cons, dget_cons, hak, hak', ih]

theorem dupd_map_fst {α : Type} (d : List (String × α)) (k : String) (f : α → α) :
    (dupd d k f).map Prod.fst = d.map Prod.fst := by
  induction d with
  | nil => rfl
  | cons p d ih =>
    obtain ⟨a, w⟩ := p
    by_cases hak : a = k <;> simp [dupd, hak, ih]

theorem dget_dset_self {α : Type} (d : List (String × α)) (k : String) (v : α) :
    dget (dset d k v) k = some v := by
  unfold dset dmem
  by_cases h : (dget d k).isSome
  · rw [if_pos h, dget_dupd, if_pos rfl]
    obtain ⟨w, hw⟩ := Option.isSome_iff_exists.mp h
    rw [hw]; rfl
  · rw [if_neg h]
    rw [dget_append_none _ (Option.not_isSome_iff_eq_none.mp h)]
    simp [dget]

theorem dget_dset_ne {α : Type} (d : List (String × α)) {k k' : String} (v : α)
    (h : k ≠ k') : dget (dset d k v) k' = dget d k' := by
  unfold dset dmem
  by_cases hs : (dget d k).isSome
  · rw [if_pos hs, dget_dupd, if_neg h]
  · rw [if_neg hs]
    cases hk' : dget d k' with
    | some w => exact dget_append_some _ hk'
    | none =>
      rw [dget_append_none _ hk']
      simp [dget, fun hh : k = k' => h hh]

theorem dget_dpop_ne {α : Type} (d : List (String × α)) {k k' : String}
    (h : k ≠ k') : dget (dpop d k) k' = dget d k' := by
  induction d with
  | nil => rfl
  | cons p d ih =>
    obtain ⟨a, w⟩ := p
    by_cases hak : a = k
    · rw [show dpop ((a, w) :: d) k = dpop d k from by simp [dpop, hak], ih, dget_cons,
        if_neg (fun hh : a = k' => h (hak ▸ hh ▸ rfl))]
    · rw [show dpop ((a, w) :: d) k = (a, w) :: dpop d k from by simp [dpop, hak],
        dget_cons, dget_cons]
      by_cases hak' : a = k'
      · rw [if_pos hak', if_pos hak']
      · rw [if_neg hak', if_neg hak', ih]

theorem dget_map_erase (d : List (String × List String)) (k u : String) :
    dget (d.map (fun p => (p.1, p.2.erase u))) k =
      (dget d k).map (fun l => l.erase u) := by
  induction d with
  | nil => rfl
  | cons p d ih =>
    obtain ⟨a, w⟩ := p
    by_cases hak : a = k <;> simp [dget_cons, hak, ih]

theorem lobbyAdd_lobby (roomsL : List (String × List String)) (u : String) :
    dget (lobbyAdd roomsL u) "lobby" = some ((dget roomsL "lobby").getD [] ++ [u]) := by
  unfold lobbyAdd dmem
  by_cases h : (dget roomsL "lobby").isSome
  · rw [if_pos h, dget_dupd, if_pos rfl]
    obtain ⟨w, hw⟩ := Option.isSome_iff_exists.mp h
    rw [hw]; rfl
  · rw [if_neg h, dget_dupd, if_pos rfl,
      dget_append_none _ (Option.not_isSome_iff_eq_none.mp h),
      Option.not_isSome_iff_eq_none.mp h]
    rfl

theorem lobbyAdd_other (roomsL : List (String × List String)) (u : String) {r : String}
    (h : r ≠ "lobby") : dget (lobbyAdd roomsL u) r = dget roomsL r := by
  unfold lobbyAdd dmem
  have hne : ("lobby" : String) ≠ r := fun hh => h hh.symm
  by_cases hs : (dget roomsL "lobby").isSome
  · rw [if_pos hs, dget_dupd, if_neg hne]
  · rw [if_neg hs, dget_dupd, if_neg hne]
    cases hr : dget roomsL r with
    | some w => exact dget_append_some _ hr
    | none =>
      rw [dget_append_none _ hr]
      simp [dget, hne]

theorem lobbyAdd_map_fst_of_mem (roomsL : List (String × List String)) (u : String)
    (h : dmem roomsL "lobby" = true) :
    (lobbyAdd roomsL u).map Prod.fst = roomsL.map Prod.fst := by
  unfold lobbyAdd
  rw [if_pos h, dupd_map_fst]

/-! ## Lemmas about the active-room recompute loop -/

theorem firstRoomContaining_mem_keys {d : List (String × List String)} {u r : String}
    (h : firstRoomContaining d u = some r) : r ∈ d.map Prod.fst := by
  induction d with
  | nil => simp [firstRoomContaining] at h
  | cons p d ih =>
    obtain ⟨a, m⟩ := p
    by_cases hm : u ∈ m
    · simp [firstRoomContaining, hm] at h
      simp [h]
    · simp [firstRoomContaining, hm] at h
      simp [ih h]

theorem firstRoomContaining_dget {d : List (String × List String)} {u r : String}
    (hnd : (d.map Prod.fst).Nodup) (h : firstRoomContaining d u = some r) :
    ∃ m, dget d r = some m ∧ u ∈ m := by
  induction d with
  | nil => simp [firstRoomContaining] at h
  | cons p d ih =>
    obtain ⟨a, m⟩ := p
    rw [List.map_cons, List.nodup_cons] at hnd
    by_cases hm : u ∈ m
    · simp [firstRoomContaining, hm] at h
      exact ⟨m, by rw [← h, dget_cons, if_pos rfl], hm⟩
    · simp [firstRoomContaining, hm] at h
      obtain ⟨m', hm', hu⟩ := ih hnd.2 h
      refine ⟨m', ?_, hu⟩
      rw [dget_cons, if_neg, hm']
      intro har
      exact hnd.1 (har ▸ firstRoomContaining_mem_keys h)

theorem firstRoomContaining_first {d : List (String × List String)} {u r : String}
    (h : firstRoomContaining d u = some r) : FirstMembership d u r := by
  induction d with
  | nil => simp [firstRoomContaining] at h
  | cons p d ih =>
    obtain ⟨a, m⟩ := p
    by_cases hm : u ∈ m
    · simp [firstRoomContaining, hm] at h
      exact ⟨[], m, d, by simp [h], hm, by simp⟩
    · simp [firstRoomContaining, hm] at h
      obtain ⟨pre, m', rest, hd, hu, hpre⟩ := ih h
      refine ⟨(a, m) :: pre, m', rest, by rw [hd]; rfl, hu, ?_⟩
      intro p hp
      rcases List.mem_cons.mp hp with hp | hp
      · rw [hp]; exact hm
      · exact hpre p hp

theorem firstRoomContaining_eq_none {d : List (String × List String)} {u : String}
    (h : ∀ p ∈ d, u ∉ p.2) : firstRoomContaining d u = none := by
  induction d with
  | nil => rfl
  | cons p d ih =>
    obtain ⟨a, m⟩ := p
    have hm : u ∉ m := h (a, m) (List.mem_cons_self _ _)
    simp only [firstRoomContaining, if_neg hm]
    exact ih (fun q hq => h q (List.mem_cons_of_mem _ hq))

theorem firstRoomContaining_isSome_of_mem {d : List (String × List String)}
    {u : String} {p : String × List String} (hp : p ∈ d) (hu : u ∈ p.2) :
    (firstRoomContaining d u).isSome := by
  induction d with
  | nil => simp at hp
  | cons q d ih =>
    obtain ⟨a, m⟩ := q
    by_cases hm : u ∈ m
    · simp [firstRoomContaining, hm]
    · simp only [firstRoomContaining, if_neg hm]
      rcases List.mem_cons.mp hp with hq | hq
      · subst hq; exact absurd hu hm
      · exact ih hq

/-! ## Codec facts -/

theorem parseBe4_be4 {n : Nat} (h : n < 2 ^ 32) : parseBe4 (be4 n) = n := by
  simp only [be4, parseBe4]
  omega

theorem be4_length (n : Nat) : (be4 n).length = 4 := rfl

theorem encode_length (m : Msg) : m.encode.length = 8 + m.payload.length := by
  simp [Msg.encode, be4]
  omega

/-- Claim C8: for every Message whose opcode fits in an unsigned 32-bit
integer and whose payload (as UTF-8 bytes) has a length representable in
the 32-bit length field, decoding the encoding returns the same Message.
(src/protocol.py has no configured maximum payload length at all, so the
only bound really needed is the one `struct.pack` imposes.) -/
theorem encode_then_decode_roundtrip (m : Msg) (h1 : m.opcode < 2 ^ 32)
    (h2 : m.payload.length < 2 ^ 32) : Msg.decode m.encode = some m := by
  have hlen8 : ((be4 m.opcode ++ be4 m.payload.length).length = 8) := rfl
  have hdost : m.encode.drop 8 = m.payload := by
    rw [Msg.encode, List.drop_left' hlen8]
  have htake : m.encode.take 4 = be4 m.opcode := by
    rw [Msg.encode, List.take_append_of_le_length (by simp [be4]),
      List.take_left' (be4_length _)]
  have hdecl : declaredLen m.encode = m.payload.length := by
    rw [declaredLen, Msg.encode, List.append_assoc, List.drop_left' (be4_length _),
      List.take_left' (be4_length _), parseBe4_be4 h2]
  rw [Msg.decode, if_neg (by rw [encode_length]; omega), hdost, htake, hdecl,
    parseBe4_be4 h1, List.take_length]

/-- Claim C8 witness: the roundtrip at a concrete Message. -/
theorem encode_then_decode_roundtrip_witness :
    (3 : Nat) < 2 ^ 32 ∧ ([104, 105] : List Nat).length < 2 ^ 32 ∧
      Msg.decode (Msg.encode ⟨3, [104, 105]⟩) = some ⟨3, [104, 105]⟩ :=
  ⟨by decide, by decide,
    encode_then_decode_roundtrip ⟨3, [104, 105]⟩ (by decide) (by decide)⟩

/-- Claim C10: `Message.decode` validates nothing about its buffer. A
buffer of fewer than 8 bytes makes `struct.unpack` raise (`none`); a
buffer of at least 8 bytes whose header declares more payload bytes than
are present yields a Message whose payload bytes are silently truncated
to the entire remainder of the buffer, with no report of the missing
bytes. (The subsequent `bytes.decode` of the truncated remainder is the
UTF-8 read of exactly those bytes.) -/
theorem decode_no_bounds_validation (data : List Nat) :
    (data.length < 8 → Msg.decode data = none) ∧
    (8 ≤ data.length → data.length < 8 + declaredLen data →
      Msg.decode data = some ⟨parseBe4 (data.take 4), data.drop 8⟩) := by
  constructor
  · intro h
    rw [Msg.decode, if_pos h]
  · intro h8 hshort
    rw [Msg.decode, if_neg (by omega)]
    have : (data.drop 8).take (declaredLen data) = data.drop 8 :=
      List.take_of_length_le (by rw [List.length_drop]; omega)
    rw [this]

/-- Claim C10 witness: a 9-byte buffer declaring a 5-byte payload but
carrying only 1 payload byte decodes to a Message with that 1-byte
payload. -/
theorem decode_no_bounds_validation_witness :
    8 ≤ ([0, 0, 0, 3, 0, 0, 0, 5, 65] : List Nat).length ∧
      ([0, 0, 0, 3, 0, 0, 0, 5, 65] : List Nat).length <
        8 + declaredLen [0, 0, 0, 3, 0, 0, 0, 5, 65] ∧
      Msg.decode [0, 0, 0, 3, 0, 0, 0, 5, 65] = some ⟨3, [65]⟩ :=
  ⟨by decide, by decide,
    (decode_no_bounds_validation [0, 0, 0, 3, 0, 0, 0, 5, 65]).2 (by decide) (by decide)⟩

/-- Claim C2: contrary to the claim, `Message.decode` has no configured
maximum and raises no error for an oversized declared length: an 8-byte
header declaring a 1000000-byte payload with no payload bytes at all
produces a Message (with empty payload) instead of failing, so the
connection is not closed and a Message is produced from the hostile
header. -/
theorem oversized_length_produces_message :
    Msg.decode (be4 3 ++ be4 1000000) = some ⟨3, []⟩ := by decide

/-- Claim C1: the receive path is not a stream reassembler. The encoded
frame of Message(3, "hi") delivered whole decodes to that message, and
the section 4.1 reassembler yields the same message when the bytes
arrive split 5/5 across two reads, but the actual receive path
(`read(1024)` then one `Message.decode` per read) yields no message at
all on the split delivery: the 5-byte first read makes `struct.unpack`
raise and the connection die. -/
theorem fragmentation_not_reassembled :
    serverDecodeReads [Msg.encode ⟨3, [104, 105]⟩] = [⟨3, [104, 105]⟩] ∧
    reassembleReads [(Msg.encode ⟨3, [104, 105]⟩).take 5,
      (Msg.encode ⟨3, [104, 105]⟩).drop 5] = [⟨3, [104, 105]⟩] ∧
    serverDecodeReads [(Msg.encode ⟨3, [104, 105]⟩).take 5,
      (Msg.encode ⟨3, [104, 105]⟩).drop 5] = [] := by decide

/-! ## Delivery isolation -/

theorem mem_broadcastDeliver {ok : String → Bool} {u : String}
    {targets : List String} (hu : u ∈ targets) (hok : ok u = true) :
    u ∈ broadcastDeliver targets ok := by
  induction targets with
  | nil => simp at hu
  | cons c rest ih =>
    rcases List.mem_cons.mp hu with hc | hc
    · subst hc
      rw [broadcastDeliver, if_pos hok]
      exact List.mem_cons_self _ _
    · rw [broadcastDeliver]
      by_cases hokc : ok c = true
      · rw [if_pos hokc]; exact List.mem_cons_of_mem _ (ih hc)
      · rw [if_neg hokc]; exact ih hc

theorem mem_roomDeliverLoop {clientsL : List String} {ok : String → Bool} {u : String}
    {members : List String} (hu : u ∈ members) (hcl : u ∈ clientsL)
    (hok : ok u = true) : u ∈ roomDeliverLoop clientsL ok members := by
  induction members with
  | nil => simp at hu
  | cons c rest ih =>
    rcases List.mem_cons.mp hu with hc | hc
    · subst hc
      rw [roomDeliverLoop, if_pos hcl, if_pos hok]
      exact List.mem_cons_self _ _
    · rw [roomDeliverLoop]
      by_cases hc1 : c ∈ clientsL
      · rw [if_pos hc1]
        by_cases hokc : ok c = true
        · rw [if_pos hokc]; exact List.mem_cons_of_mem _ (ih hc)
        · rw [if_neg hokc]; exact ih hc
      · rw [if_neg hc1]; exact ih hc

/-- Claim C9: per-recipient failure isolation of the delivery loops.
With a failure oracle under which at most the single recipient `b`
fails, every other target of a global broadcast is still delivered to,
and every other live member of a room send is still delivered to. The
loops are total functions of the whole target list (each iteration's
`try`/`except` catches its own failure), so no failure ever escapes to
the sender. -/
theorem delivery_isolation (ok : String → Bool) (b : String)
    (hb : ∀ u, ok u = false → u = b) :
    (∀ targets : List String, ∀ u ∈ targets, u ≠ b →
      u ∈ broadcastDeliver targets ok) ∧
    (∀ s : ServerState, ∀ room members, dget s.rooms room = some members →
      ∀ u ∈ members, u ∈ s.clients → u ≠ b → u ∈ sendRoomDeliver s room ok) := by
  have hok : ∀ u, u ≠ b → ok u = true := by
    intro u hu
    cases h : ok u with
    | false => exact absurd (hb u h) hu
    | true => rfl
  constructor
  · intro targets u hu hub
    exact mem_broadcastDeliver hu (hok u hub)
  · intro s room members hm u hu hcl hub
    rw [sendRoomDeliver, hm]
    exact mem_roomDeliverLoop hu hcl (hok u hub)

/-- Claim C9 witness: with recipient bob broken, alice and carol still
receive the broadcast frame. -/
theorem delivery_isolation_witness :
    (∀ u : String, (u != "bob") = false → u = "bob") ∧
    "alice" ∈ broadcastDeliver ["alice", "bob", "carol"] (fun v => v != "bob") := by
  have hb : ∀ u : String, (u != "bob") = false → u = "bob" := by
    intro u h
    simpa using h
  exact ⟨hb, (delivery_isolation (fun v => v != "bob") "bob" hb).1
    ["alice", "bob", "carol"] "alice" (by decide) (by decide)⟩

/-! ## Session handshake -/

/-- Claim C3 (amended): the session becomes ACTIVE (the `registered`
flag) if and only if the first decoded frame carries the HELLO opcode
and its payload, stripped of surrounding whitespace, contains no space
character and is not an already-registered username. On success the user
is registered, a lobby member and has lobby as active room; otherwise
the registry is unchanged and exactly one error frame is written back.
(The claim as stated is refuted elsewhere: the code never requires the
username to be non-empty, and only the space character, not all
whitespace, is rejected.) -/
theorem handshake_active_iff (s : ServerState) (opcode : Nat) (payload : String) :
    ((handshake s opcode payload).registered = true ↔
      opcode = OPCODE_HELLO ∧ hasSpace (pyStrip payload) = false ∧
        pyStrip payload ∉ s.clients) ∧
    ((handshake s opcode payload).registered = true →
      pyStrip payload ∈ (handshake s opcode payload).st.clients ∧
      dget (handshake s opcode payload).st.active_rooms (pyStrip payload) =
        some "lobby" ∧
      ∃ m, dget (handshake s opcode payload).st.rooms "lobby" = some m ∧
        pyStrip payload ∈ m) ∧
    ((handshake s opcode payload).registered = false →
      (handshake s opcode payload).st = s ∧
      ∃ t, (handshake s opcode payload).sends = [(OPCODE_ERROR, t)]) := by
  by_cases h1 : opcode = OPCODE_HELLO
  · by_cases h2 : hasSpace (pyStrip payload) = true
    · refine ⟨?_, ?_, ?_⟩ <;> simp [handshake, h1, h2]
    · by_cases h3 : pyStrip payload ∈ s.clients
      · refine ⟨?_, ?_, ?_⟩ <;> simp [handshake, h1, h2, h3]
      · refine ⟨?_, ?_, ?_⟩ <;> simp [handshake, h1, h2, h3]
        refine ⟨?_, ?_⟩
        · exact dget_dset_self _ _ _
        · exact ⟨_, lobbyAdd_lobby _ _, by simp⟩
  · refine ⟨?_, ?_, ?_⟩ <;> simp [handshake, h1]

/-- Claim C3 witness: on a server with alice registered, bob's HELLO is
accepted and bob lands in the lobby. -/
theorem handshake_active_iff_witness :
    ((handshake ⟨["alice"], [("lobby", ["alice"])], [("alice", "lobby")]⟩
        OPCODE_HELLO "bob").registered = true →
      pyStrip "bob" ∈ (handshake ⟨["alice"], [("lobby", ["alice"])],
        [("alice", "lobby")]⟩ OPCODE_HELLO "bob").st.clients ∧
      dget (handshake ⟨["alice"], [("lobby", ["alice"])],
        [("alice", "lobby")]⟩ OPCODE_HELLO "bob").st.active_rooms (pyStrip "bob") =
        some "lobby" ∧
      ∃ m, dget (handshake ⟨["alice"], [("lobby", ["alice"])],
        [("alice", "lobby")]⟩ OPCODE_HELLO "bob").st.rooms "lobby" = some m ∧
        pyStrip "bob" ∈ m) ∧
    (handshake ⟨["alice"], [("lobby", ["alice"])], [("alice", "lobby")]⟩
        OPCODE_HELLO "bob").registered = true :=
  ⟨(handshake_active_iff ⟨["alice"], [("lobby", ["alice"])], [("alice", "lobby")]⟩
      OPCODE_HELLO "bob").2.1, by decide⟩

/-- Claim C3 counterexample: on a fresh server a HELLO frame with empty
payload is accepted, and the empty string becomes a registered
username — the claim requires a non-empty username to be the only way to
become ACTIVE. -/
theorem hello_empty_username_accepted :
    (handshake ⟨[], [], []⟩ OPCODE_HELLO "").registered = true ∧
    "" ∈ (handshake ⟨[], [], []⟩ OPCODE_HELLO "").st.clients := by decide

/-! ## Room creation -/

/-- Claim C4 (amended): a CREATE_ROOM for an existing room leaves the
whole registry state (in particular the room map) unchanged and performs
no close, but the ERROR_ROOM_ALREADY_EXISTS frame is broadcast to every
connected client — requester and bystanders alike — via
`broadcast_message`, not sent to the requester only. -/
theorem create_room_exists_behavior (s : ServerState) (u room : String)
    (h : dmem s.rooms room = true) :
    handle_create_room s u room =
      (s, broadcastSends s.clients ERROR_ROOM_ALREADY_EXISTS
        ("Room \x27" ++ room ++ "\x27 already exists!")) := by
  rw [handle_create_room, if_pos h]

/-- Claim C4 witness: concrete duplicate creation, state unchanged and
one frame per client. -/
theorem create_room_exists_behavior_witness :
    dmem ([("lobby", ["alice", "bob"]), ("x", [])] :
        List (String × List String)) "x" = true ∧
    handle_create_room ⟨["alice", "bob"], [("lobby", ["alice", "bob"]), ("x", [])],
        [("alice", "lobby"), ("bob", "lobby")]⟩ "alice" "x" =
      (⟨["alice", "bob"], [("lobby", ["alice", "bob"]), ("x", [])],
        [("alice", "lobby"), ("bob", "lobby")]⟩,
       broadcastSends ["alice", "bob"] ERROR_ROOM_ALREADY_EXISTS
        ("Room \x27" ++ "x" ++ "\x27 already exists!")) :=
  ⟨by decide, create_room_exists_behavior _ "alice" "x" (by decide)⟩

/-- Claim C4 counterexample: with clients alice and bob and existing
room "x", alice's duplicate CREATE_ROOM makes the server write the
error frame to bob too, contradicting requester-only reporting. -/
theorem create_room_error_reaches_other_client :
    ("bob", ERROR_ROOM_ALREADY_EXISTS, "Room \x27x\x27 already exists!") ∈
      (handle_create_room ⟨["alice", "bob"],
        [("lobby", ["alice", "bob"]), ("x", [])],
        [("alice", "lobby"), ("bob", "lobby")]⟩ "alice" "x").2 := by decide

/-! ## Room join -/

theorem ne_lobby_of_pyLower {room : String} (h : pyLower room ≠ "lobby") :
    room ≠ "lobby" := by
  intro hh
  exact h (by rw [hh]; decide)

theorem join_room_result (s : ServerState) (u room : String) {members : List String}
    (hm : dget s.rooms room = some members) (hu : u ∉ members) :
    handle_join_room s u room =
      (⟨s.clients, dupd (joinLobbyPrune s u room) room (fun l => l ++ [u]),
        dset s.active_rooms u room⟩,
       broadcastSends s.clients OPCODE_JOIN
        (u ++ " joined room \x27" ++ room ++ "\x27")) := by
  rw [handle_join_room, hm]
  simp [hu]

theorem joinLobbyPrune_dget_ne (s : ServerState) (u room : String) {r : String}
    (hr : r ≠ "lobby") : dget (joinLobbyPrune s u room) r = dget s.rooms r := by
  unfold joinLobbyPrune
  by_cases hlow : pyLower room ≠ "lobby"
  · rw [if_pos hlow]
    cases hlm : dget s.rooms "lobby" with
    | none => rfl
    | some lm =>
      dsimp only
      by_cases hul : u ∈ lm
      · rw [if_pos hul, dget_dupd, if_neg (fun hh => hr hh.symm)]
      · rw [if_neg hul]
  · rw [if_neg hlow]

theorem joinLobbyPrune_dget_room (s : ServerState) (u room : String)
    {members : List String} (hm : dget s.rooms room = some members) :
    dget (joinLobbyPrune s u room) room = some members := by
  by_cases hrl : room = "lobby"
  · subst hrl
    unfold joinLobbyPrune
    rw [if_neg (fun hh : pyLower "lobby" ≠ "lobby" => hh (by decide))]
    exact hm
  · rw [joinLobbyPrune_dget_ne s u room hrl]
    exact hm

theorem joinLobbyPrune_lobby (s : ServerState) (u room : String)
    (hlow : pyLower room ≠ "lobby") :
    dget (joinLobbyPrune s u room) "lobby" =
      (dget s.rooms "lobby").map (fun l => l.erase u) := by
  unfold joinLobbyPrune
  rw [if_pos hlow]
  cases hlm : dget s.rooms "lobby" with
  | none => exact hlm
  | some lm =>
    dsimp only
    by_cases hul : u ∈ lm
    · rw [if_pos hul, dget_dupd, if_pos rfl, hlm]
    · rw [if_neg hul, hlm]
      simp [List.erase_of_not_mem hul]

theorem joinLobbyPrune_preserves (s : ServerState) (u room v : String) (hv : v ≠ u)
    {r : String} {m : List String} (hr : dget s.rooms r = some m) (hm : v ∈ m) :
    ∃ m', dget (joinLobbyPrune s u room) r = some m' ∧ v ∈ m' := by
  by_cases hrl : r = "lobby"
  · subst hrl
    by_cases hlow : pyLower room ≠ "lobby"
    · rw [joinLobbyPrune_lobby s u room hlow, hr]
      exact ⟨_, rfl, (List.mem_erase_of_ne hv).mpr hm⟩
    · unfold joinLobbyPrune
      rw [if_neg hlow]
      exact ⟨m, hr, hm⟩
  · rw [joinLobbyPrune_dget_ne s u room hrl]
    exact ⟨m, hr, hm⟩

/-- Claim C5 (amended): joining an existing room the user already
belongs to is a pure confirmation that changes no registry state; after
a successful non-duplicate join the joined room is the user's active
room and the user is appended to its member list; memberships in rooms
other than `"lobby"` and the joined room are untouched; and when the
joined room does not lower-case to `"lobby"`, the user is removed from
the lobby member list whenever they are in it — regardless of how many
other rooms they belong to (the code never checks that lobby is the
user's only room, which refutes the claim as stated). -/
theorem join_room_behavior (s : ServerState) (u room : String)
    (members : List String) (hm : dget s.rooms room = some members) :
    (u ∈ members → handle_join_room s u room =
      (s, [(u, OPCODE_JOIN, "You are already in room \x27" ++ room ++ "\x27")])) ∧
    (u ∉ members →
      dget (handle_join_room s u room).1.active_rooms u = some room ∧
      dget (handle_join_room s u room).1.rooms room = some (members ++ [u]) ∧
      (∀ r, r ≠ "lobby" → r ≠ room →
        dget (handle_join_room s u room).1.rooms r = dget s.rooms r) ∧
      (pyLower room ≠ "lobby" →
        dget (handle_join_room s u room).1.rooms "lobby" =
          (dget s.rooms "lobby").map (fun l => l.erase u))) := by
  constructor
  · intro hu
    rw [handle_join_room, hm]
    simp [hu]
  · intro hu
    rw [join_room_result s u room hm hu]
    dsimp only
    refine ⟨dget_dset_self _ _ _, ?_, ?_, ?_⟩
    · rw [dget_dupd, if_pos rfl, joinLobbyPrune_dget_room s u room hm]
      rfl
    · intro r hrl hrr
      rw [dget_dupd, if_neg (fun hh : room = r => hrr hh.symm),
        joinLobbyPrune_dget_ne s u room hrl]
    · intro hlow
      rw [dget_dupd, if_neg (ne_lobby_of_pyLower hlow),
        joinLobbyPrune_lobby s u room hlow]

/-- Claim C5 witness: a user in lobby joining a freshly created room
"dev" ends with "dev" active, is appended to "dev", and is erased from
lobby. -/
theorem join_room_behavior_witness :
    dget ([("lobby", ["alice"]), ("dev", [])] : List (String × List String))
        "dev" = some [] ∧
    ("alice" ∉ ([] : List String) →
      dget (handle_join_room ⟨["alice"], [("lobby", ["alice"]), ("dev", [])],
        [("alice", "lobby")]⟩ "alice" "dev").1.active_rooms "alice" = some "dev" ∧
      dget (handle_join_room ⟨["alice"], [("lobby", ["alice"]), ("dev", [])],
        [("alice", "lobby")]⟩ "alice" "dev").1.rooms "dev" =
          some ([] ++ ["alice"]) ∧
      (∀ r, r ≠ "lobby" → r ≠ "dev" →
        dget (handle_join_room ⟨["alice"], [("lobby", ["alice"]), ("dev", [])],
          [("alice", "lobby")]⟩ "alice" "dev").1.rooms r =
        dget ([("lobby", ["alice"]), ("dev", [])] : List (String × List String)) r) ∧
      (pyLower "dev" ≠ "lobby" →
        dget (handle_join_room ⟨["alice"], [("lobby", ["alice"]), ("dev", [])],
          [("alice", "lobby")]⟩ "alice" "dev").1.rooms "lobby" =
        (dget ([("lobby", ["alice"]), ("dev", [])] : List (String × List String))
          "lobby").map (fun l => l.erase "alice"))) :=
  ⟨by decide,
   (join_room_behavior ⟨["alice"], [("lobby", ["alice"]), ("dev", [])],
      [("alice", "lobby")]⟩ "alice" "dev" [] (by decide)).2⟩

/-- Claim C5 counterexample: user u belongs to both "lobby" and room
"a" (so is not "currently only in lobby"), yet joining room "b" still
removes u from the lobby member list, which the claim forbids. -/
theorem join_removes_lobby_despite_other_membership :
    dget (⟨["u"], [("lobby", ["u"]), ("a", ["u"]), ("b", [])],
        [("u", "a")]⟩ : ServerState).rooms "a" = some ["u"] ∧
    dget (⟨["u"], [("lobby", ["u"]), ("a", ["u"]), ("b", [])],
        [("u", "a")]⟩ : ServerState).rooms "lobby" = some ["u"] ∧
    dget (handle_join_room ⟨["u"], [("lobby", ["u"]), ("a", ["u"]), ("b", [])],
        [("u", "a")]⟩ "u" "b").1.rooms "lobby" = some [] := by decide

/-! ## Room leave -/

theorem leave_room_noop (s : ServerState) (u room : String)
    (h : ∀ members, dget s.rooms room = some members → u ∉ members) :
    handle_leave_room s u room =
      (s, [(u, OPCODE_ERROR, "You are not in this room")]) := by
  cases hm : dget s.rooms room with
  | none => rw [handle_leave_room, hm]
  | some members =>
    rw [handle_leave_room, hm]
    simp [h members hm]

theorem leave_room_result_active_some (s : ServerState) (u room : String)
    {members : List String} (hm : dget s.rooms room = some members)
    (hmem : u ∈ members) (hact : dget s.active_rooms u = some room) {r0 : String}
    (hfrc : firstRoomContaining (dupd s.rooms room (fun l => l.erase u)) u = some r0) :
    (handle_leave_room s u room).1 =
      ⟨s.clients, dupd s.rooms room (fun l => l.erase u),
       dset s.active_rooms u r0⟩ := by
  rw [handle_leave_room, hm]
  simp [hmem, hact, hfrc]

theorem leave_room_result_active_none (s : ServerState) (u room : String)
    {members : List String} (hm : dget s.rooms room = some members)
    (hmem : u ∈ members) (hact : dget s.active_rooms u = some room)
    (hfrc : firstRoomContaining (dupd s.rooms room (fun l => l.erase u)) u = none) :
    (handle_leave_room s u room).1 =
      ⟨s.clients, lobbyAdd (dupd s.rooms room (fun l => l.erase u)) u,
       dset s.active_rooms u "lobby"⟩ := by
  rw [handle_leave_room, hm]
  simp [hmem, hact, hfrc]

theorem leave_room_result_not_active (s : ServerState) (u room : String)
    {members : List String} (hm : dget s.rooms room = some members)
    (hmem : u ∈ members) (hact : ¬dget s.active_rooms u = some room) :
    (handle_leave_room s u room).1 =
      ⟨s.clients, dupd s.rooms room (fun l => l.erase u), s.active_rooms⟩ := by
  rw [handle_leave_room, hm]
  simp [hmem, hact]

theorem dupd_erase_preserves (roomsL : List (String × List String))
    (room u v : String) (hv : v ≠ u) {r : String} {m : List String}
    (hr : dget roomsL r = some m) (hm : v ∈ m) :
    ∃ m', dget (dupd roomsL room (fun l => l.erase u)) r = some m' ∧ v ∈ m' := by
  rw [dget_dupd]
  by_cases hrr : room = r
  · rw [if_pos hrr, hr]
    exact ⟨_, rfl, (List.mem_erase_of_ne hv).mpr hm⟩
  · rw [if_neg hrr]
    exact ⟨m, hr, hm⟩

/-- Claim C6: leaving a room the user is not in (including a room that
does not exist) sends the not-in-room error to the requester only and
changes no state. Leaving a room the user is in while it is the active
room: if at least one membership remains in the updated room map, the
new active room is the first remaining membership in the dict iteration
order — in particular always a room whose member list contains the
user; if no membership remains, the active room reverts to `"lobby"`
and the user is re-added to the lobby member set (lobby being created
if absent). -/
theorem leave_room_behavior (s : ServerState) (u room : String)
    (hnd : (s.rooms.map Prod.fst).Nodup) :
    ((∀ members, dget s.rooms room = some members → u ∉ members) →
      handle_leave_room s u room =
        (s, [(u, OPCODE_ERROR, "You are not in this room")])) ∧
    (∀ members, dget s.rooms room = some members → u ∈ members →
      dget s.active_rooms u = some room →
      ((∃ p ∈ dupd s.rooms room (fun l => l.erase u), u ∈ p.2) →
        ∃ r m, dget (handle_leave_room s u room).1.active_rooms u = some r ∧
          dget (handle_leave_room s u room).1.rooms r = some m ∧ u ∈ m ∧
          FirstMembership (dupd s.rooms room (fun l => l.erase u)) u r) ∧
      ((∀ p ∈ dupd s.rooms room (fun l => l.erase u), u ∉ p.2) →
        dget (handle_leave_room s u room).1.active_rooms u = some "lobby" ∧
        ∃ m, dget (handle_leave_room s u room).1.rooms "lobby" = some m ∧
          u ∈ m)) := by
  constructor
  · exact leave_room_noop s u room
  · intro members hm hmem hact
    constructor
    · intro hex
      obtain ⟨p, hp, hup⟩ := hex
      obtain ⟨r0, hr0⟩ := Option.isSome_iff_exists.mp
        (firstRoomContaining_isSome_of_mem hp hup)
      rw [leave_room_result_active_some s u room hm hmem hact hr0]
      dsimp only
      have hnd1 : ((dupd s.rooms room (fun l => l.erase u)).map Prod.fst).Nodup := by
        rw [dupd_map_fst]; exact hnd
      obtain ⟨m0, hm0, hum0⟩ := firstRoomContaining_dget hnd1 hr0
      exact ⟨r0, m0, dget_dset_self _ _ _, hm0, hum0,
        firstRoomContaining_first hr0⟩
    · intro hnone
      have hfrc : firstRoomContaining (dupd s.rooms room (fun l => l.erase u)) u =
          none := firstRoomContaining_eq_none hnone
      rw [leave_room_result_active_none s u room hm hmem hact hfrc]
      dsimp only
      exact ⟨dget_dset_self _ _ _, _, lobbyAdd_lobby _ _, by simp⟩

/-- Claim C6 witness: user u leaves active room "a" while still a member
of "b"; the active room becomes a room containing u, namely the first
such in dict order. -/
theorem leave_room_behavior_witness :
    dget ([("lobby", []), ("a", ["u"]), ("b", ["u"])] :
        List (String × List String)) "a" = some ["u"] ∧
    (("u", "a") ∈ ([("u", "a")] : List (String × String))) ∧
    (∃ r m, dget (handle_leave_room ⟨["u"],
        [("lobby", []), ("a", ["u"]), ("b", ["u"])], [("u", "a")]⟩
        "u" "a").1.active_rooms "u" = some r ∧
      dget (handle_leave_room ⟨["u"],
        [("lobby", []), ("a", ["u"]), ("b", ["u"])], [("u", "a")]⟩
        "u" "a").1.rooms r = some m ∧ "u" ∈ m ∧
      FirstMembership (dupd [("lobby", []), ("a", ["u"]), ("b", ["u"])] "a"
        (fun l => l.erase "u")) "u" r) :=
  ⟨by decide, by decide,
   ((leave_room_behavior ⟨["u"], [("lobby", []), ("a", ["u"]), ("b", ["u"])],
      [("u", "a")]⟩ "u" "a" (by decide)).2 ["u"] (by decide) (by decide)
      (by decide)).1 ⟨("b", ["u"]), by decide, by decide⟩⟩

/-! ## Registry invariant -/

/-- Claim C7: the registry invariant — every registered user's active
room is a key of the room map and its member list contains the user —
is preserved by each operation run to completion: the HELLO
registration, room creation, room join, room leave, and the disconnect
cleanup. The `Nodup` hypotheses record that the Python dicts backing
`clients` and `rooms` cannot hold duplicate keys. -/
theorem registry_invariant_preserved (s : ServerState)
    (hcl : s.clients.Nodup) (hrk : (s.rooms.map Prod.fst).Nodup)
    (h : RegInv s) :
    (∀ opcode payload, RegInv (handshake s opcode payload).st) ∧
    (∀ u room, RegInv (handle_create_room s u room).1) ∧
    (∀ u room, RegInv (handle_join_room s u room).1) ∧
    (∀ u room, RegInv (handle_leave_room s u room).1) ∧
    (∀ u, RegInv (disconnectCleanup s u)) := by
  refine ⟨?_, ?_, ?_, ?_, ?_⟩
  · -- registration
    intro opcode payload
    by_cases h1 : opcode = OPCODE_HELLO
    · by_cases h2 : hasSpace (pyStrip payload) = true
      · simpa [handshake, h1, h2] using h
      · by_cases h3 : pyStrip payload ∈ s.clients
        · simpa [handshake, h1, h2, h3] using h
        · have hst : (handshake s opcode payload).st =
              ⟨s.clients ++ [pyStrip payload], lobbyAdd s.rooms (pyStrip payload),
               dset s.active_rooms (pyStrip payload) "lobby"⟩ := by
            simp [handshake, h1, h2, h3]
          intro v hv
          rw [hst] at hv ⊢
          dsimp only at hv ⊢
          rcases List.mem_append.mp hv with hv | hv
          · have hvne : v ≠ pyStrip payload := fun hh => h3 (hh ▸ hv)
            obtain ⟨r, m, ha, hr, hmv⟩ := h v hv
            refine ⟨r, ?_⟩
            rw [dget_dset_ne _ _ (fun hh => hvne hh.symm)]
            by_cases hrl : r = "lobby"
            · subst hrl
              refine ⟨(dget s.rooms "lobby").getD [] ++ [pyStrip payload],
                ha, lobbyAdd_lobby _ _, ?_⟩
              rw [hr]
              exact List.mem_append_left _ hmv
            · exact ⟨m, ha, by rw [lobbyAdd_other _ _ hrl]; exact hr, hmv⟩
          · have hv' : v = pyStrip payload := by simpa using hv
            refine ⟨"lobby", (dget s.rooms "lobby").getD [] ++ [pyStrip payload],
              ?_, lobbyAdd_lobby _ _, ?_⟩
            · rw [hv']
              exact dget_dset_self _ _ _
            · rw [hv']
              exact List.mem_append_right _ (List.mem_singleton.mpr rfl)
    · simpa [handshake, h1] using h
  · -- room creation
    intro u room
    by_cases hmem : dmem s.rooms room = true
    · simpa [handle_create_room, hmem] using h
    · intro v hv
      have hst : (handle_create_room s u room).1 =
          { s with rooms := s.rooms ++ [(room, [])] } := by
        simp [handle_create_room, hmem]
      rw [hst] at hv ⊢
      obtain ⟨r, m, ha, hr, hmv⟩ := h v hv
      exact ⟨r, m, ha, dget_append_some _ hr, hmv⟩
  · -- room join
    intro u room
    cases hm : dget s.rooms room with
    | none => simpa [handle_join_room, hm] using h
    | some members =>
      by_cases hdup : u ∈ members
      · simpa [handle_join_room, hm, hdup] using h
      · intro v hv
        rw [join_room_result s u room hm hdup] at hv ⊢
        dsimp only at hv ⊢
        by_cases hvu : v = u
        · subst hvu
          refine ⟨room, members ++ [v], dget_dset_self _ _ _, ?_, ?_⟩
          · rw [dget_dupd, if_pos rfl, joinLobbyPrune_dget_room s v room hm]
            rfl
          · exact List.mem_append_right _ (List.mem_singleton.mpr rfl)
        · obtain ⟨r, m, ha, hr, hmv⟩ := h v hv
          obtain ⟨m', hm', hvm'⟩ := joinLobbyPrune_preserves s u room v hvu hr hmv
          refine ⟨r, ?_⟩
          rw [dget_dset_ne _ _ (fun hh => hvu hh.symm), dget_dupd]
          by_cases hrr : room = r
          · rw [if_pos hrr, hm']
            exact ⟨m' ++ [u], ha, rfl, List.mem_append_left _ hvm'⟩
          · rw [if_neg hrr]
            exact ⟨m', ha, hm', hvm'⟩
  · -- room leave
    intro u room
    cases hm : dget s.rooms room with
    | none => simpa [handle_leave_room, hm] using h
    | some members =>
      by_cases hmem : u ∈ members
      · by_cases hact : dget s.active_rooms u = some room
        · cases hfrc : firstRoomContaining
            (dupd s.rooms room (fun l => l.erase u)) u with
          | some r0 =>
            intro v hv
            rw [leave_room_result_active_some s u room hm hmem hact hfrc] at hv ⊢
            dsimp only at hv ⊢
            by_cases hvu : v = u
            · subst hvu
              have hnd1 : ((dupd s.rooms room
                  (fun l => l.erase v)).map Prod.fst).Nodup := by
                rw [dupd_map_fst]; exact hrk
              obtain ⟨m0, hm0, hum0⟩ := firstRoomContaining_dget hnd1 hfrc
              exact ⟨r0, m0, dget_dset_self _ _ _, hm0, hum0⟩
            · obtain ⟨r, m, ha, hr, hmv⟩ := h v hv
              obtain ⟨m', hm', hvm'⟩ :=
                dupd_erase_preserves s.rooms room u v hvu hr hmv
              exact ⟨r, m', by
                rw [dget_dset_ne _ _ (fun hh => hvu hh.symm)]; exact ha, hm', hvm'⟩
          | none =>
            intro v hv
            rw [leave_room_result_active_none s u room hm hmem hact hfrc] at hv ⊢
            dsimp only at hv ⊢
            by_cases hvu : v = u
            · subst hvu
              refine ⟨"lobby", (dget (dupd s.rooms room (fun l => l.erase v))
                  "lobby").getD [] ++ [v],
                dget_dset_self _ _ _, lobbyAdd_lobby _ _, ?_⟩
              exact List.mem_append_right _ (List.mem_singleton.mpr rfl)
            · obtain ⟨r, m, ha, hr, hmv⟩ := h v hv
              obtain ⟨m', hm', hvm'⟩ :=
                dupd_erase_preserves s.rooms room u v hvu hr hmv
              refine ⟨r, ?_⟩
              rw [dget_dset_ne _ _ (fun hh => hvu hh.symm)]
              by_cases hrl : r = "lobby"
              · subst hrl
                refine ⟨(dget (dupd s.rooms room (fun l => l.erase u))
                    "lobby").getD [] ++ [u], ha, lobbyAdd_lobby _ _, ?_⟩
                rw [hm']
                exact List.mem_append_left _ hvm'
              · exact ⟨m', ha, by rw [lobbyAdd_other _ _ hrl]; exact hm', hvm'⟩
        · intro v hv
          rw [leave_room_result_not_active s u room hm hmem hact] at hv ⊢
          dsimp only at hv ⊢
          obtain ⟨r, m, ha, hr, hmv⟩ := h v hv
          by_cases hvu : v = u
          · subst hvu
            have hrroom : r ≠ room := fun hh => hact (hh ▸ ha)
            refine ⟨r, m, ha, ?_, hmv⟩
            rw [dget_dupd, if_neg (fun hh => hrroom hh.symm)]
            exact hr
          · obtain ⟨m', hm', hvm'⟩ :=
              dupd_erase_preserves s.rooms room u v hvu hr hmv
            exact ⟨r, m', ha, hm', hvm'⟩
      · simpa [handle_leave_room, hm, hmem] using h
  · -- disconnect cleanup
    intro u v hv
    have hvc : v ∈ s.clients := List.mem_of_mem_erase hv
    have hvu : v ≠ u := ((List.Nodup.mem_erase_iff hcl).mp hv).1
    obtain ⟨r, m, ha, hr, hmv⟩ := h v hvc
    refine ⟨r, m.erase u, ?_, ?_, ?_⟩
    · dsimp only [disconnectCleanup]
      rw [dget_dpop_ne _ (fun hh : u = v => hvu hh.symm)]
      exact ha
    · dsimp only [disconnectCleanup]
      rw [dget_map_erase, hr]
      rfl
    · exact (List.mem_erase_of_ne hvu).mpr hmv

/-- Claim C7 witness: the invariant holds after user a joins room "x"
from the one-user state where a is in the lobby. -/
theorem registry_invariant_preserved_witness :
    RegInv (handle_join_room ⟨["a"], [("lobby", ["a"]), ("x", [])],
      [("a", "lobby")]⟩ "a" "x").1 :=
  (registry_invariant_preserved ⟨["a"], [("lobby", ["a"]), ("x", [])],
    [("a", "lobby")]⟩ (by decide) (by decide)
    (by
      intro v hv
      have hva : v = "a" := by simpa using hv
      subst hva
      exact ⟨"lobby", ["a"], by decide, by decide, by decide⟩)).2.2.1 "a" "x"
